import Mathlib

/-!
Verification development for the alias-resolution core of the
vscode-sass-alias extension (src/extension.ts).

Shallow embedding conventions:
* Absolute filesystem paths are modelled as lists of path segments in
  reversed order (innermost segment first); the filesystem root is the
  empty list.  Node's path.dirname is List.tail, path.parse(d).root
  comparison becomes comparison with the empty list.
* The filesystem is a value: an association list from paths to entry
  kinds (file / directory / other), plus modification timestamps and
  file contents.  fs.access (used by fileExists) succeeds exactly when
  the path has an entry; fs.stat returns the entry kind.
* JSON documents are abstracted to the only part the code inspects:
  ConfigContent.invalid models text on which JSON.parse throws, and
  ConfigContent.valid po models a parsed document whose
  compilerOptions.paths field is po (none models an absent or falsy
  field, matching the:: "config.compilerOptions?.paths || \x7b\x7d" default).
* Every embedded operation also returns the ordered trace of filesystem
  operations it performed, so that claims of the form "does not touch
  the filesystem" become "the trace is empty".
* JavaScript Record objects are modelled as ordered association lists
  with JS object-assignment semantics (insertKV replaces in place,
  keeping the original key position, or appends a new key at the end);
  this preserves Object.keys iteration order, which alias matching
  depends on.
-/

namespace SassAlias

/-- A filesystem path: segments in reversed order, root is the empty list. -/
abbrev FsPath := List String

/-- Kind of a filesystem entry, as distinguished by fs.stat. -/
inductive FsKind where
  | file
  | dir
  | other
deriving DecidableEq, Repr

/-- Abstraction of a configuration file's text, as far as getTsConfigAliases
inspects it: invalid means JSON.parse throws; valid po means JSON.parse
succeeds and compilerOptions.paths is po (none when absent). -/
inductive ConfigContent where
  | invalid
  | valid (paths : Option (List (String × List String)))
deriving DecidableEq, Repr

/-- The filesystem as a value: entry kinds, modification timestamps, contents. -/
structure FileSystem where
  entries : List (FsPath × FsKind)
  mtimes : List (FsPath × Nat)
  contents : List (FsPath × ConfigContent)
deriving DecidableEq, Repr

/-- A single filesystem operation, recorded in traces. -/
inductive FsOp where
  | accessOp (p : FsPath)
  | statOp (p : FsPath)
  | readOp (p : FsPath)
deriving DecidableEq, Repr

/-- Association-list lookup (model of reading a JS Record field). -/
def lookupKV {α β : Type} [DecidableEq α] : List (α × β) → α → Option β
  | [], _ => none
  | (k', v') :: rest, k => if k' = k then some v' else lookupKV rest k

/-- Association-list update with JS object-assignment semantics: replace the
value in place when the key is present (keeping its position), otherwise
append the new key at the end. -/
def insertKV {α β : Type} [DecidableEq α] : List (α × β) → α → β → List (α × β)
  | [], k, v => [(k, v)]
  | (k', v') :: rest, k, v =>
      if k' = k then (k, v) :: rest else (k', v') :: insertKV rest k v

/-- Model of fs.stat restricted to the entry kind: some kind when the path
exists, none when stat would throw. -/
def statKind (fs : FileSystem) (p : FsPath) : Option FsKind :=
  lookupKV fs.entries p

/-- Model of fileExists (fs.access with R_OK, errors caught and turned into
false): true exactly when the path has a filesystem entry of any kind.
Note that it does NOT distinguish files from directories. -/
def fileExists (fs : FileSystem) (p : FsPath) : Bool :=
  (statKind fs p).isSome

/-- Modification timestamp of a path (stat.mtimeMs). -/
def mtimeOf (fs : FileSystem) (p : FsPath) : Nat :=
  (lookupKV fs.mtimes p).getD 0

/-- Contents of a path, for fs.readFile followed by JSON.parse. -/
def contentOf (fs : FileSystem) (p : FsPath) : ConfigContent :=
  (lookupKV fs.contents p).getD .invalid

/-- Split a string at every slash character (used to interpret the relative
path strings fed to Node's path.join / path.resolve). -/
def splitSlashAux (acc : List Char) : List Char → List String
  | [] => [String.mk acc.reverse]
  | c :: rest =>
      if c = '/' then String.mk acc.reverse :: splitSlashAux [] rest
      else splitSlashAux (c :: acc) rest

/-- Segments of a path string, split on slashes. -/
def splitSlash (s : String) : List String :=
  splitSlashAux [] s.data

/-- Apply path segments to a base path with Node's normalization: empty and
dot segments are skipped, dot-dot pops one segment, anything else is pushed. -/
def applySegments : FsPath → List String → FsPath
  | base, [] => base
  | base, s :: rest =>
      if s = "" ∨ s = "." then applySegments base rest
      else if s = ".." then applySegments base.tail rest
      else applySegments (s :: base) rest

/-- Model of Node's path.join(base, rel) for an absolute base: the relative
string is split into segments and applied to the base (a leading slash on
rel does not restart at the root, exactly as path.join behaves). -/
def joinPath (base : FsPath) (rel : String) : FsPath :=
  applySegments base (splitSlash rel)

/-- Model of Node's path.resolve(base, t): an absolute t (leading slash)
replaces the base, otherwise it behaves as path.join. -/
def resolvePath (base : FsPath) (t : String) : FsPath :=
  match t.data with
  | c :: _ => if c = '/' then applySegments [] (splitSlash t) else joinPath base t
  | [] => joinPath base t

/-- Remove the first occurrence of pat from a character list, exactly as the
JavaScript expression s.replace(pat, "") does for a string pattern. -/
def stripFirstOcc (pat : List Char) : List Char → List Char
  | [] => []
  | c :: rest =>
      if pat.isPrefixOf (c :: rest) then (c :: rest).drop pat.length
      else c :: stripFirstOcc pat rest

/-- Model of the source expression s.replace("/*", ""): removes the FIRST
occurrence of the wildcard marker, wherever it appears. -/
def stripWild (s : String) : String :=
  String.mk (stripFirstOcc ['/', '*'] s.data)

/-- Model of JavaScript String.prototype.startsWith. -/
def strStarts (s pre : String) : Bool :=
  pre.data.isPrefixOf s.data

/-- Appending an extension string to a path models the source expression
filePath + ext, which concatenates onto the path STRING, i.e. onto the
innermost segment. -/
def addExt (p : FsPath) (ext : String) : FsPath :=
  match p with
  | [] => if ext = "" then [] else [ext]
  | s :: rest => (s ++ ext) :: rest

/-- Alias table: ordered mapping from stripped alias key to the ordered list
of absolute base paths (the aliases Record built by getTsConfigAliases). -/
abbrev AliasTable := List (String × List FsPath)

/-- One resolved target of an alias: strip the first wildcard marker and
resolve against the configuration file's directory
(path.resolve(path.dirname(configPath), p.replace("/*", ""))). -/
def resolveTarget (cfgDir : FsPath) (t : String) : FsPath :=
  resolvePath cfgDir (stripWild t)

/-- The alias-building loop of getTsConfigAliases:
for (const alias in paths) aliases[alias.replace("/*","")] = actualPaths. -/
def buildAliases (cfgDir : FsPath) : List (String × List String) → AliasTable → AliasTable
  | [], acc => acc
  | (k, ts) :: rest, acc =>
      buildAliases cfgDir rest (insertKV acc (stripWild k) (ts.map (resolveTarget cfgDir)))

/-- Cache entry of the alias-table cache (ConfigCacheEntry in the source). -/
structure ConfigCacheEntry where
  aliases : AliasTable
  lastModified : Nat
  configPath : FsPath
deriving DecidableEq, Repr

/-- Errors that escape getTsConfigAliases: fs.stat throwing on a missing
config path, or JSON.parse throwing on invalid content. -/
inductive CfgError where
  | statError
  | parseError
deriving DecidableEq, Repr

/-- The read-and-parse tail of getTsConfigAliases (lines 75-92 of the
source): read the file, JSON.parse it (invalid content throws), default a
missing paths field to the empty map, build the alias table and replace the
cache entry for this config path. -/
def parseConfig (fs : FileSystem) (cache : List (FsPath × ConfigCacheEntry))
    (configPath : FsPath) (lastModified : Nat) :
    Except CfgError AliasTable × List (FsPath × ConfigCacheEntry) × List FsOp :=
  match contentOf fs configPath with
  | .invalid => (.error .parseError, cache, [.statOp configPath, .readOp configPath])
  | .valid pathsOpt =>
      let aliases := buildAliases configPath.tail (pathsOpt.getD []) []
      (.ok aliases,
        insertKV cache configPath ⟨aliases, lastModified, configPath⟩,
        [.statOp configPath, .readOp configPath])

/-- Embedding of getTsConfigAliases: stat the config file for its
modification timestamp; on a cache entry with an identical timestamp return
the cached table (no read, no parse); otherwise read, parse and replace the
cache entry. -/
def getTsConfigAliases (fs : FileSystem) (cache : List (FsPath × ConfigCacheEntry))
    (configPath : FsPath) :
    Except CfgError AliasTable × List (FsPath × ConfigCacheEntry) × List FsOp :=
  match statKind fs configPath with
  | none => (.error .statError, cache, [.statOp configPath])
  | some _ =>
      let lastModified := mtimeOf fs configPath
      match lookupKV cache configPath with
      | some e =>
          if e.lastModified = lastModified then (.ok e.aliases, cache, [.statOp configPath])
          else parseConfig fs cache configPath lastModified
      | none => parseConfig fs cache configPath lastModified

/-- Embedding of findNearestConfig: walk the ancestor chain while the
current directory is not the filesystem root; consult configPathCache with
JavaScript truthiness (so an entry holding null is NOT treated as a hit),
probe tsconfig.json then jsconfig.json, cache the outcome, and recurse into
the parent directory. -/
def findNearestConfig (fs : FileSystem) :
    List (FsPath × Option FsPath) → FsPath →
    Option FsPath × List (FsPath × Option FsPath) × List FsOp
  | cache, [] => (none, cache, [])
  | cache, s :: rest =>
      match lookupKV cache (s :: rest) with
      | some (some p) => (some p, cache, [])
      | _ =>
          let tsConfigPath := joinPath (s :: rest) "tsconfig.json"
          if fileExists fs tsConfigPath then
            (some tsConfigPath, insertKV cache (s :: rest) (some tsConfigPath),
              [.accessOp tsConfigPath])
          else
            let jsConfigPath := joinPath (s :: rest) "jsconfig.json"
            if fileExists fs jsConfigPath then
              (some jsConfigPath, insertKV cache (s :: rest) (some jsConfigPath),
                [.accessOp tsConfigPath, .accessOp jsConfigPath])
            else
              let r := findNearestConfig fs (insertKV cache (s :: rest) none) rest
              (r.1, r.2.1, .accessOp tsConfigPath :: .accessOp jsConfigPath :: r.2.2)

/-- The probe list of tryWithExtensions. -/
def extList : List String := ["", ".sass", ".scss", ".css"]

/-- The extension loop of tryWithExtensions: probe filePath + ext for each
extension in order and return the first path that exists (of any kind). -/
def probeExts (fs : FileSystem) (filePath : FsPath) : List String → Option FsPath × List FsOp
  | [] => (none, [])
  | e :: rest =>
      let p := addExt filePath e
      if fileExists fs p then (some p, [.accessOp p])
      else
        let r := probeExts fs filePath rest
        (r.1, .accessOp p :: r.2)

/-- Embedding of tryWithExtensions: join the specifier onto the document's
directory and probe the exact path and the suffixed candidates in order. -/
def tryWithExtensions (fs : FileSystem) (docDir : FsPath) (importPath : String) :
    Option FsPath × List FsOp :=
  probeExts fs (joinPath docDir importPath) extList

/-- The base-path loop of resolveAlias: for each base path, join the
remainder; if nothing exists continue with the next base path; a file is
returned; a directory is probed for index.scss then main.scss and is
terminal either way; any other kind is terminal with no result. -/
def resolveLoop (fs : FileSystem) (relativePath : String) :
    List FsPath → Option FsPath × List FsOp
  | [] => (none, [])
  | basePath :: rest =>
      let resolvedPath := joinPath basePath relativePath
      if fileExists fs resolvedPath then
        match statKind fs resolvedPath with
        | some .file => (some resolvedPath, [.accessOp resolvedPath, .statOp resolvedPath])
        | some .dir =>
            let indexPath := joinPath resolvedPath "index.scss"
            let mainPath := joinPath resolvedPath "main.scss"
            if fileExists fs indexPath then
              (some indexPath,
                [.accessOp resolvedPath, .statOp resolvedPath, .accessOp indexPath])
            else if fileExists fs mainPath then
              (some mainPath,
                [.accessOp resolvedPath, .statOp resolvedPath, .accessOp indexPath,
                  .accessOp mainPath])
            else
              (none,
                [.accessOp resolvedPath, .statOp resolvedPath, .accessOp indexPath,
                  .accessOp mainPath])
        | some .other => (none, [.accessOp resolvedPath, .statOp resolvedPath])
        | none => (none, [.accessOp resolvedPath, .statOp resolvedPath])
      else
        let r := resolveLoop fs relativePath rest
        (r.1, .accessOp resolvedPath :: r.2)

/-- Embedding of resolveAlias: the first alias key in the table's iteration
order that is a literal string prefix of the specifier wins; with no match,
fall back to tryWithExtensions.  The remainder importPath.replace(aliasKey,
"") equals dropping the key's length, because startsWith guarantees the
first occurrence is at position zero. -/
def resolveAlias (fs : FileSystem) (docDir : FsPath) (importPath : String)
    (aliases : AliasTable) : Option FsPath × List FsOp :=
  match aliases.find? (fun kv => strStarts importPath kv.1) with
  | none => tryWithExtensions fs docDir importPath
  | some (aliasKey, basePaths) =>
      resolveLoop fs (String.mk (importPath.data.drop aliasKey.data.length)) basePaths

/-- The single-quote character (written by code point to keep the source
free of quote literals). -/
def squote : Char := Char.ofNat 39

/-- The double-quote character. -/
def dquote : Char := Char.ofNat 34

/-- Whether a character is one of the two quote characters of the pattern. -/
def isQuote (c : Char) : Bool :=
  c = squote ∨ c = dquote

/-- Whitespace characters recognised by the regex class backslash-s (the
ones relevant to style-sheet text). -/
def wsChar (c : Char) : Bool :=
  c = ' ' ∨ c = '\t' ∨ c = '\n' ∨ c = '\r'

/-- Consume characters up to the next quote (either kind); return the
captured characters and the rest after the closing quote, or none when the
input ends before a quote is seen. -/
def grabUntilQuote : List Char → Option (List Char × List Char)
  | [] => none
  | c :: rest =>
      if isQuote c then some ([], rest)
      else
        match grabUntilQuote rest with
        | some (cap, r) => some (c :: cap, r)
        | none => none

/-- Count and skip leading whitespace. -/
def skipWs : List Char → Nat × List Char
  | [] => (0, [])
  | c :: rest =>
      if wsChar c then
        let r := skipWs rest
        (r.1 + 1, r.2)
      else (0, c :: rest)

/-- After the directive part of the pattern has consumed the given number of
characters, match the rest of the regex: any whitespace, an opening quote, a
nonempty capture of non-quote characters, a closing quote.  Returns the
total match length and the captured specifier. -/
def matchTail (consumed : Nat) (cs : List Char) : Option (Nat × String) :=
  let ws := skipWs cs
  match ws.2 with
  | q :: cs2 =>
      if isQuote q then
        match grabUntilQuote cs2 with
        | some (cap, _) =>
            if cap.isEmpty then none
            else some (consumed + ws.1 + 1 + cap.length + 1, String.mk cap)
        | none => none
      else none
  | [] => none

/-- Attempt to match the pattern at the head of the character list.  The
pattern is the source regex: an at sign, the word use or the word import,
optional whitespace, a quoted nonempty specifier. -/
def matchAt (cs : List Char) : Option (Nat × String) :=
  match cs with
  | c :: rest =>
      if c = '@' then
        if ['u', 's', 'e'].isPrefixOf rest then matchTail 4 (rest.drop 3)
        else if ['i', 'm', 'p', 'o', 'r', 't'].isPrefixOf rest then matchTail 7 (rest.drop 6)
        else none
      else none
  | [] => none

/-- Global-flag regex scan: repeatedly try the pattern at the current
position, continuing after each full match (non-overlapping, textual order).
Every step consumes at least one character, so fuel equal to the text length
plus one is sufficient for the full scan. -/
def scanImportsAux : Nat → List Char → Nat → List (Nat × Nat × String)
  | 0, _, _ => []
  | _, [], _ => []
  | fuel + 1, c :: rest, i =>
      match matchAt (c :: rest) with
      | some (len, al) => (i, len, al) :: scanImportsAux fuel ((c :: rest).drop len) (i + len)
      | none => scanImportsAux fuel rest (i + 1)

/-- All matches of the directive pattern in the text, as
(match index, match length, captured specifier) triples. -/
def scanImports (text : String) : List (Nat × Nat × String) :=
  scanImportsAux (text.data.length + 1) text.data 0

/-- Index of the first occurrence of pat in the haystack (model of
JavaScript String.prototype.indexOf for the in-range uses of the source;
returns the haystack length when absent, a case that cannot arise there). -/
def indexOfSub (pat : List Char) : List Char → Nat
  | [] => 0
  | c :: rest => if pat.isPrefixOf (c :: rest) then 0 else indexOfSub pat rest + 1

/-- A document link: the character range of the specifier in the text and
the resolved target path.  Editor positions are a fixed bijective function
of character offsets for a given text, so offset ranges model ranges. -/
structure DocumentLink where
  rangeStart : Nat
  rangeStop : Nat
  target : FsPath
deriving DecidableEq, Repr

/-- Character range of the specifier inside the match, as the source
computes it: match.index + match[0].indexOf(alias), extended by the
specifier's length. -/
def mkRange (text : String) (idx len : Nat) (al : String) : Nat × Nat :=
  let m0 := (text.data.drop idx).take len
  let off := idx + indexOfSub al.data m0
  (off, off + al.data.length)

/-- The per-match loop of provideDocumentLinks: resolve each captured
specifier and keep a link for every successful resolution, in textual
order, concatenating the filesystem traces. -/
def scanMatches (fs : FileSystem) (docDir : FsPath) (text : String) (aliases : AliasTable) :
    List (Nat × Nat × String) → List DocumentLink × List FsOp
  | [] => ([], [])
  | (idx, len, al) :: rest =>
      let r := resolveAlias fs docDir al aliases
      let tailRes := scanMatches fs docDir text aliases rest
      match r.1 with
      | some p =>
          let rg := mkRange text idx len al
          (⟨rg.1, rg.2, p⟩ :: tailRes.1, r.2 ++ tailRes.2)
      | none => (tailRes.1, r.2 ++ tailRes.2)

/-- A document: its absolute file path (its identity) and its full text. -/
structure Document where
  fileName : FsPath
  text : String
deriving DecidableEq, Repr

/-- The three process-wide caches of the extension. -/
structure ExtState where
  configCache : List (FsPath × ConfigCacheEntry)
  configPathCache : List (FsPath × Option FsPath)
  documentLinkCache : List (FsPath × List DocumentLink)
deriving DecidableEq, Repr

/-- The all-empty initial state. -/
def initState : ExtState := ⟨[], [], []⟩

/-- Embedding of provideDocumentLinks: return the cached link list for the
document when present (a cached empty list is a JavaScript-truthy array and
therefore a hit); otherwise walk for the nearest config (early empty return
with NO caching when none is found), build the alias table (errors from it
propagate out uncaught), scan the text, resolve every match, cache and
return the links. -/
def provideDocumentLinks (fs : FileSystem) (st : ExtState) (doc : Document) :
    Except CfgError (List DocumentLink) × ExtState × List FsOp :=
  match lookupKV st.documentLinkCache doc.fileName with
  | some links => (.ok links, st, [])
  | none =>
      let fileDir := doc.fileName.tail
      let found := findNearestConfig fs st.configPathCache fileDir
      let st1 : ExtState := { st with configPathCache := found.2.1 }
      match found.1 with
      | none => (.ok [], st1, found.2.2)
      | some configPath =>
          match getTsConfigAliases fs st1.configCache configPath with
          | (.error e, cc, tr2) =>
              (.error e, { st1 with configCache := cc }, found.2.2 ++ tr2)
          | (.ok aliases, cc, tr2) =>
              let st2 : ExtState := { st1 with configCache := cc }
              let scanned := scanMatches fs fileDir doc.text aliases (scanImports doc.text)
              let st3 : ExtState :=
                { st2 with
                    documentLinkCache := insertKV st2.documentLinkCache doc.fileName scanned.1 }
              (.ok scanned.1, st3, found.2.2 ++ tr2 ++ scanned.2)

/-! Concrete fixtures used by witnesses and counterexamples. -/

/-- An empty filesystem. -/
def fsEmpty : FileSystem := ⟨[], [], []⟩

/-- A document /p/a.scss importing the relative specifier ./foo. -/
def docRelFoo : Document := ⟨["a.scss", "p"], "@use \"./foo\""⟩

/-- Filesystem with a syntactically invalid /p/tsconfig.json and a plain
file /p/foo.scss. -/
def fsBadCfg : FileSystem :=
  ⟨[(["tsconfig.json", "p"], .file), (["foo.scss", "p"], .file)],
   [(["tsconfig.json", "p"], 7)],
   [(["tsconfig.json", "p"], .invalid)]⟩

/-- Filesystem with a directory /p/foo and a file /p/foo.scss. -/
def fsDirFoo : FileSystem :=
  ⟨[(["foo", "p"], .dir), (["foo.scss", "p"], .file)], [], []⟩

/-- Filesystem with files /p/foo.scss and /p/foo.css and no /p/foo. -/
def fsTwoExts : FileSystem :=
  ⟨[(["foo.scss", "p"], .file), (["foo.css", "p"], .file)], [], []⟩

/-- Filesystem with a valid /p/tsconfig.json mapping the alias at-s to src,
and a file /p/src/btn. -/
def fsAliasBtn : FileSystem :=
  ⟨[(["tsconfig.json", "p"], .file), (["btn", "src", "p"], .file)],
   [(["tsconfig.json", "p"], 3)],
   [(["tsconfig.json", "p"], .valid (some [("@s/*", ["src/*"])]))]⟩

/-- A document /p/a.scss importing the aliased specifier at-s slash btn. -/
def docAliasBtn : Document := ⟨["a.scss", "p"], "@use \"@s/btn\""⟩

/-- The link produced for docAliasBtn on fsAliasBtn. -/
def linkBtn : DocumentLink := ⟨6, 12, ["btn", "src", "p"]⟩

/-- The state after the first successful scan of docAliasBtn on fsAliasBtn. -/
def stAfterBtn : ExtState :=
  ⟨[(["tsconfig.json", "p"],
      ⟨[("@s", [["src", "p"]])], 3, ["tsconfig.json", "p"]⟩)],
   [(["p"], some ["tsconfig.json", "p"])],
   [(["a.scss", "p"], [linkBtn])]⟩

/-- The filesystem trace of the first scan of docAliasBtn on fsAliasBtn. -/
def trBtn : List FsOp :=
  [.accessOp ["tsconfig.json", "p"], .statOp ["tsconfig.json", "p"],
   .readOp ["tsconfig.json", "p"], .accessOp ["btn", "src", "p"],
   .statOp ["btn", "src", "p"]]

/-- Filesystem with a directory /proj/styles/button holding both index.scss
and main.scss, plus an unrelated base directory. -/
def fsIdxMain : FileSystem :=
  ⟨[(["button", "styles", "proj"], .dir),
    (["index.scss", "button", "styles", "proj"], .file),
    (["main.scss", "button", "styles", "proj"], .file)], [], []⟩

/-- Filesystem with a single file /lib/bc. -/
def fsLibBc : FileSystem := ⟨[(["bc", "lib"], .file)], [], []⟩

/-- Filesystem whose only entry is a tsconfig.json directly in the
filesystem root. -/
def fsRootCfg : FileSystem := ⟨[(["tsconfig.json"], .file)], [], []⟩

/-! Helper lemmas about the association-list model. -/

theorem lookupKV_insert_self {α β : Type} [DecidableEq α] (l : List (α × β)) (k : α) (v : β) :
    lookupKV (insertKV l k v) k = some v := by
  induction l with
  | nil => simp [insertKV, lookupKV]
  | cons kv rest ih =>
      obtain ⟨k', v'⟩ := kv
      by_cases h : k' = k <;> simp [insertKV, lookupKV, h, ih]

theorem lookupKV_insert_ne {α β : Type} [DecidableEq α] (l : List (α × β)) (k k' : α) (v : β)
    (h : k' ≠ k) : lookupKV (insertKV l k v) k' = lookupKV l k' := by
  induction l with
  | nil => simp [insertKV, lookupKV, Ne.symm h]
  | cons kv rest ih =>
      obtain ⟨k'', v''⟩ := kv
      by_cases hh : k'' = k
      · subst hh
        simp [insertKV, lookupKV, Ne.symm h]
      · simp [insertKV, lookupKV, hh, ih]

theorem lookupKV_mem {α β : Type} [DecidableEq α] {l : List (α × β)} {k : α} {v : β}
    (h : lookupKV l k = some v) : (k, v) ∈ l := by
  induction l with
  | nil => simp [lookupKV] at h
  | cons kv rest ih =>
      obtain ⟨k', v'⟩ := kv
      by_cases hk : k' = k
      · subst hk
        simp [lookupKV] at h
        simp [h]
      · simp [lookupKV, hk] at h
        exact List.mem_cons_of_mem _ (ih h)

theorem mem_insertKV {α β : Type} [DecidableEq α] {l : List (α × β)} {k : α} {v : β}
    {x : α × β} (h : x ∈ insertKV l k v) : x ∈ l ∨ x = (k, v) := by
  induction l with
  | nil => simp [insertKV] at h; simp [h]
  | cons kv rest ih =>
      obtain ⟨k', v'⟩ := kv
      by_cases hk : k' = k
      · subst hk
        simp [insertKV] at h
        rcases h with h | h
        · right; simp [h]
        · left; exact List.mem_cons_of_mem _ h
      · simp [insertKV, hk] at h
        rcases h with h | h
        · left; simp [h]
        · rcases ih h with h2 | h2
          · left; exact List.mem_cons_of_mem _ h2
          · right; exact h2

theorem addExt_empty (p : FsPath) : addExt p "" = p := by
  match p with
  | [] => rfl
  | s :: rest => simp [addExt, String.append_empty]

theorem probeExts_fst (fs : FileSystem) (p : FsPath) (es : List String) :
    (probeExts fs p es).1 = (es.map (addExt p)).find? (fun q => fileExists fs q) := by
  induction es with
  | nil => rfl
  | cons e rest ih =>
      simp only [probeExts, List.map_cons, List.find?_cons]
      cases h : fileExists fs (addExt p e) <;> simp [h, ih]

theorem find?_append_first {α : Type} (p : α → Bool) (pre post : List α) (x : α)
    (hpre : ∀ a ∈ pre, p a = false) (hx : p x = true) :
    (pre ++ x :: post).find? p = some x := by
  induction pre with
  | nil => simp [List.find?_cons, hx]
  | cons a rest ih =>
      have ha := hpre a (by simp)
      simp [List.find?_cons, ha, ih (fun b hb => hpre b (List.mem_cons_of_mem _ hb))]

theorem buildAliases_skip (cfgDir : FsPath) (paths : List (String × List String))
    (acc : AliasTable) (key : String)
    (h : ∀ kv ∈ paths, stripWild kv.1 ≠ key) :
    lookupKV (buildAliases cfgDir paths acc) key = lookupKV acc key := by
  induction paths generalizing acc with
  | nil => rfl
  | cons kv rest ih =>
      obtain ⟨k, ts⟩ := kv
      simp only [buildAliases]
      rw [ih _ (fun kv2 h2 => h kv2 (List.mem_cons_of_mem _ h2)),
        lookupKV_insert_ne _ _ _ _ (Ne.symm (h (k, ts) (by simp)))]

theorem buildAliases_lookup_aux (cfgDir : FsPath) (paths : List (String × List String)) :
    ∀ (acc : AliasTable) (k : String) (ts : List String),
      (k, ts) ∈ paths → (paths.map (fun kv => stripWild kv.1)).Nodup →
      lookupKV (buildAliases cfgDir paths acc) (stripWild k) =
        some (ts.map (resolveTarget cfgDir)) := by
  induction paths with
  | nil => intro acc k ts hmem _; simp at hmem
  | cons kv rest ih =>
      intro acc k ts hmem hnd
      obtain ⟨k', ts'⟩ := kv
      simp only [List.map_cons, List.nodup_cons] at hnd
      rcases List.mem_cons.mp hmem with heq | hmem2
      · injection heq with h1 h2
        subst h1; subst h2
        have hskip : ∀ kv2 ∈ rest, stripWild kv2.1 ≠ stripWild k := by
          intro kv2 h2 hcontra
          exact hnd.1 (hcontra ▸ List.mem_map_of_mem (fun kv => stripWild kv.1) h2)
        simp only [buildAliases]
        rw [buildAliases_skip cfgDir rest _ _ hskip, lookupKV_insert_self]
      · simp only [buildAliases]
        exact ih _ k ts hmem2 hnd.2

theorem joinPath_tsconfig (base : FsPath) :
    joinPath base "tsconfig.json" = "tsconfig.json" :: base := rfl

theorem joinPath_jsconfig (base : FsPath) :
    joinPath base "jsconfig.json" = "jsconfig.json" :: base := rfl

/-- C4 (amended): with no matching alias key, resolveAlias joins the
specifier onto the importing document's directory and probes the exact path
then the .sass, .scss, .css suffixed candidates in that fixed order,
returning the first candidate that EXISTS (of any kind: the access-based
probe does not distinguish files from directories), and none when no
candidate exists. -/
theorem c4_relative_probe_order (fs : FileSystem) (docDir : FsPath) (importPath : String)
    (aliases : AliasTable)
    (hno : ∀ kv ∈ aliases, strStarts importPath kv.1 = false) :
    (resolveAlias fs docDir importPath aliases).1 =
      [joinPath docDir importPath,
        addExt (joinPath docDir importPath) ".sass",
        addExt (joinPath docDir importPath) ".scss",
        addExt (joinPath docDir importPath) ".css"].find? (fun q => fileExists fs q) := by
  have hfind : aliases.find? (fun kv => strStarts importPath kv.1) = none :=
    List.find?_eq_none.mpr (fun kv hkv => by simp [hno kv hkv])
  simp only [resolveAlias, hfind, tryWithExtensions, probeExts_fst, extList]
  simp [addExt_empty]

/-- C4 witness: with foo.scss and foo.css both present and no bare foo, the
specifier ./foo resolves to foo.scss (the declared probe order). -/
theorem c4_witness :
    (resolveAlias fsTwoExts ["p"] "./foo" []).1 = some ["foo.scss", "p"] := by
  rw [c4_relative_probe_order fsTwoExts ["p"] "./foo" [] (by simp)]
  decide

/-- C4 counterexample: with a directory /p/foo and a file /p/foo.scss, the
fallback returns the directory /p/foo, not the file /p/foo.scss, refuting
the claim that the first candidate existing AS A FILE is returned. -/
theorem c4_counterexample :
    (resolveAlias fsDirFoo ["p"] "./foo" []).1 = some ["foo", "p"] ∧
    statKind fsDirFoo ["foo", "p"] = some .dir ∧
    statKind fsDirFoo ["foo.scss", "p"] = some .file := by
  decide

/-- C5 (amended): for every declared alias (with pairwise distinct stripped
keys), the builder strips the FIRST occurrence of the wildcard marker from
the alias key and from each target pattern (which is the trailing marker
whenever the marker occurs only at the end), resolves each resulting
relative target against the configuration file's own directory, and stores
the ordered absolute targets under the stripped key. -/
theorem c5_wildcard_strip_and_resolve (cfgDir : FsPath)
    (paths : List (String × List String)) (k : String) (ts : List String)
    (hmem : (k, ts) ∈ paths)
    (hnd : (paths.map (fun kv => stripWild kv.1)).Nodup) :
    lookupKV (buildAliases cfgDir paths []) (stripWild k) =
      some (ts.map (resolveTarget cfgDir)) :=
  buildAliases_lookup_aux cfgDir paths [] k ts hmem hnd

/-- C5 witness: a two-alias configuration under /proj builds the expected
table: at-c/* with targets src/c/* and lib/c maps to the absolute
directories /proj/src/c and /proj/lib/c, in declaration order. -/
theorem c5_witness :
    lookupKV (buildAliases ["proj"] [("@c/*", ["src/c/*", "lib/c"]), ("@d", ["d/*"])] [])
        (stripWild "@c/*") =
      some [["c", "src", "proj"], ["c", "lib", "proj"]] := by
  have h := c5_wildcard_strip_and_resolve ["proj"]
    [("@c/*", ["src/c/*", "lib/c"]), ("@d", ["d/*"])] "@c/*" ["src/c/*", "lib/c"]
    (by simp) (by decide)
  exact h.trans (by decide)

/-- C5 counterexample: the builder removes the FIRST occurrence of the
wildcard marker, not a trailing one.  The key at-a/*/b has no trailing
marker, so under the claim it would be stored unchanged; the code stores
at-a/b instead.  Likewise the target s/*/t loses its inner marker. -/
theorem c5_counterexample :
    lookupKV (buildAliases ["proj"] [("@a/*/b", ["x"])] []) "@a/*/b" = none ∧
    lookupKV (buildAliases ["proj"] [("@a/*/b", ["x"])] []) "@a/b" = some [["x", "proj"]] ∧
    lookupKV (buildAliases ["proj"] [("@k", ["s/*/t"])] []) "@k" = some [["t", "s", "proj"]] := by
  decide

/-- C6: getTsConfigAliases first stats the configuration file; with a cache
entry carrying an identical timestamp it returns the cached table unchanged
with no read and no parse (the trace holds the stat only), and with a
differing timestamp it re-reads and re-parses the file and replaces the
cache entry with the new table and the observed timestamp. -/
theorem c6_timestamp_cache (fs : FileSystem) (cache : List (FsPath × ConfigCacheEntry))
    (configPath : FsPath) (e : ConfigCacheEntry) (knd : FsKind)
    (po : Option (List (String × List String)))
    (hstat : statKind fs configPath = some knd)
    (hc : lookupKV cache configPath = some e)
    (hval : contentOf fs configPath = .valid po) :
    getTsConfigAliases fs cache configPath =
      if e.lastModified = mtimeOf fs configPath then
        (.ok e.aliases, cache, [.statOp configPath])
      else
        (.ok (buildAliases configPath.tail (po.getD []) []),
          insertKV cache configPath
            ⟨buildAliases configPath.tail (po.getD []) [], mtimeOf fs configPath, configPath⟩,
          [.statOp configPath, .readOp configPath]) := by
  simp only [getTsConfigAliases, hstat, hc]
  by_cases hlm : e.lastModified = mtimeOf fs configPath
  · simp [hlm]
  · simp [hlm, parseConfig, hval]

/-- C6 witness: the cached table for /p/tsconfig.json is returned unchanged
when the stat-observed timestamp equals the cached one, with a stat-only
trace. -/
theorem c6_witness :
    getTsConfigAliases fsAliasBtn
        [(["tsconfig.json", "p"], ⟨[("@s", [["src", "p"]])], 3, ["tsconfig.json", "p"]⟩)]
        ["tsconfig.json", "p"] =
      (.ok [("@s", [["src", "p"]])],
        [(["tsconfig.json", "p"], ⟨[("@s", [["src", "p"]])], 3, ["tsconfig.json", "p"]⟩)],
        [.statOp ["tsconfig.json", "p"]]) := by
  have h := c6_timestamp_cache fsAliasBtn
    [(["tsconfig.json", "p"], ⟨[("@s", [["src", "p"]])], 3, ["tsconfig.json", "p"]⟩)]
    ["tsconfig.json", "p"]
    ⟨[("@s", [["src", "p"]])], 3, ["tsconfig.json", "p"]⟩ .file
    (some [("@s/*", ["src/*"])]) rfl rfl rfl
  simpa using h

/-- C7: when the path joined from a base path and the remainder exists as a
directory, resolveAlias probes index.scss then main.scss inside it in that
fixed order and returns whichever is found first; when neither is found the
whole alias resolves to none, with no fallback to any remaining base path
(the result is that of the singleton base-path list, whatever follows). -/
theorem c7_directory_index_main (fs : FileSystem) (relativePath : String)
    (basePath : FsPath) (rest : List FsPath)
    (hdir : statKind fs (joinPath basePath relativePath) = some .dir) :
    (resolveLoop fs relativePath (basePath :: rest)).1 =
      (if fileExists fs (joinPath (joinPath basePath relativePath) "index.scss") then
        some (joinPath (joinPath basePath relativePath) "index.scss")
      else if fileExists fs (joinPath (joinPath basePath relativePath) "main.scss") then
        some (joinPath (joinPath basePath relativePath) "main.scss")
      else none) ∧
    (resolveLoop fs relativePath (basePath :: rest)).1 =
      (resolveLoop fs relativePath [basePath]).1 := by
  have hex : fileExists fs (joinPath basePath relativePath) = true := by
    simp [fileExists, hdir]
  have key : ∀ tail : List FsPath, (resolveLoop fs relativePath (basePath :: tail)).1 =
      (if fileExists fs (joinPath (joinPath basePath relativePath) "index.scss") then
        some (joinPath (joinPath basePath relativePath) "index.scss")
      else if fileExists fs (joinPath (joinPath basePath relativePath) "main.scss") then
        some (joinPath (joinPath basePath relativePath) "main.scss")
      else none) := by
    intro tail
    simp only [resolveLoop, hex, hdir, if_true]
    by_cases hidx : fileExists fs (joinPath (joinPath basePath relativePath) "index.scss")
    · simp [hidx]
    · by_cases hmn : fileExists fs (joinPath (joinPath basePath relativePath) "main.scss") <;>
        simp [hidx, hmn]
  exact ⟨key rest, (key rest).trans (key []).symm⟩

/-- C7 witness: /proj/styles/button is a directory holding both index.scss
and main.scss; the alias remainder button resolves to index.scss (index
wins), with an unrelated further base path present and ignored. -/
theorem c7_witness :
    (resolveLoop fsIdxMain "button" [["styles", "proj"], ["other"]]).1 =
      some ["index.scss", "button", "styles", "proj"] ∧
    fileExists fsIdxMain ["main.scss", "button", "styles", "proj"] = true := by
  have h := c7_directory_index_main fsIdxMain "button" ["styles", "proj"] [["other"]] rfl
  exact ⟨h.1.trans (by decide), by decide⟩

/-- C9: alias matching is a plain character-prefix test with no
path-segment boundary requirement: the selected key is the first key in the
table's iteration order that is a literal string prefix of the specifier,
and resolution proceeds with the remainder obtained by dropping exactly the
key's characters, even when that cut falls mid-segment. -/
theorem c9_first_prefix_key (fs : FileSystem) (docDir : FsPath) (importPath : String)
    (pre post : AliasTable) (k : String) (bps : List FsPath)
    (hpre : ∀ kv ∈ pre, strStarts importPath kv.1 = false)
    (hk : strStarts importPath k = true) :
    resolveAlias fs docDir importPath (pre ++ (k, bps) :: post) =
      resolveLoop fs (String.mk (importPath.data.drop k.data.length)) bps := by
  have hfind : (pre ++ (k, bps) :: post).find? (fun kv => strStarts importPath kv.1)
      = some (k, bps) :=
    find?_append_first _ pre post (k, bps) hpre hk
  simp [resolveAlias, hfind]

/-- C9 witness: the key at-a is a mid-segment prefix of the specifier
at-abc; the remainder bc is joined onto the base /lib and resolves to the
file /lib/bc. -/
theorem c9_witness :
    resolveAlias fsLibBc ["p"] "@abc" ([] ++ ("@a", [["lib"]]) :: []) =
      resolveLoop fsLibBc (String.mk ("@abc".data.drop "@a".data.length)) [["lib"]] ∧
    (resolveLoop fsLibBc (String.mk ("@abc".data.drop "@a".data.length)) [["lib"]]).1 =
      some ["bc", "lib"] := by
  refine ⟨c9_first_prefix_key fsLibBc ["p"] "@abc" [] [] "@a" [["lib"]] (by simp) (by decide), ?_⟩
  decide

/-- C10: the ancestor walk exits at the filesystem root before checking it:
with a filesystem whose only entries sit directly in the root (every entry
path has at most one segment) and a cache holding no positive results, the
locator returns none from every starting directory — a configuration file
directly in the root is never found. -/
theorem c10_root_config_never_found (fs : FileSystem)
    (cache : List (FsPath × Option FsPath)) (dir : FsPath)
    (hfs : ∀ kv ∈ fs.entries, kv.1.length ≤ 1)
    (hcache : ∀ kv ∈ cache, kv.2 = none) :
    (findNearestConfig fs cache dir).1 = none := by
  induction dir generalizing cache with
  | nil => rfl
  | cons s rest ih =>
      have hts : fileExists fs ("tsconfig.json" :: s :: rest) = false := by
        cases h : statKind fs ("tsconfig.json" :: s :: rest) with
        | none => simp [fileExists, h]
        | some knd =>
            exfalso
            have hlen := hfs _ (lookupKV_mem h)
            simp only [List.length_cons] at hlen
            omega
      have hjs : fileExists fs ("jsconfig.json" :: s :: rest) = false := by
        cases h : statKind fs ("jsconfig.json" :: s :: rest) with
        | none => simp [fileExists, h]
        | some knd =>
            exfalso
            have hlen := hfs _ (lookupKV_mem h)
            simp only [List.length_cons] at hlen
            omega
      have hins : ∀ kv ∈ insertKV cache (s :: rest) (none : Option FsPath), kv.2 = none := by
        intro kv hkv
        rcases mem_insertKV hkv with h2 | h2
        · exact hcache kv h2
        · simp [h2]
      cases hl : lookupKV cache (s :: rest) with
      | none =>
          simp only [findNearestConfig, hl, joinPath_tsconfig, joinPath_jsconfig, hts, hjs]
          simp [ih _ hins]
      | some o =>
          cases o with
          | some p =>
              have := hcache _ (lookupKV_mem hl)
              simp at this
          | none =>
              simp only [findNearestConfig, hl, joinPath_tsconfig, joinPath_jsconfig, hts, hjs]
              simp [ih _ hins]

/-- C10 witness: a tsconfig.json sitting directly in the filesystem root
exists, yet the locator starting from the directory /b/a returns none. -/
theorem c10_witness :
    (findNearestConfig fsRootCfg [] ["a", "b"]).1 = none ∧
    fileExists fsRootCfg ["tsconfig.json"] = true :=
  ⟨c10_root_config_never_found fsRootCfg [] ["a", "b"] (by decide) (by simp), by decide⟩

/-- C2 evidence (code bug): after a first locate call on directory /a with
no configuration anywhere, the directory is cached with the explicit "none"
value, yet a second locate call on the same directory still performs
filesystem probes: the truthiness test on the cache entry never treats a
cached null as a hit. -/
theorem c2_cached_none_still_probes :
    lookupKV (findNearestConfig fsEmpty [] ["a"]).2.1 ["a"] = some none ∧
    (findNearestConfig fsEmpty (findNearestConfig fsEmpty [] ["a"]).2.1 ["a"]).2.2 ≠ [] := by
  decide

/-- C1 (amended): a JSON parse failure while building the alias table
propagates out of the document scan uncaught: provideDocumentLinks returns
the parse error itself, producing no links for ANY specifier of the
document, and the document-link cache is left unchanged. -/
theorem c1_parse_error_escapes (fs : FileSystem) (st : ExtState) (doc : Document)
    (configPath : FsPath) (cpc : List (FsPath × Option FsPath)) (tr : List FsOp) (knd : FsKind)
    (hdl : lookupKV st.documentLinkCache doc.fileName = none)
    (hfind : findNearestConfig fs st.configPathCache doc.fileName.tail = (some configPath, cpc, tr))
    (hcc : lookupKV st.configCache configPath = none)
    (hstat : statKind fs configPath = some knd)
    (hval : contentOf fs configPath = .invalid) :
    (provideDocumentLinks fs st doc).1 = .error .parseError ∧
    (provideDocumentLinks fs st doc).2.1.documentLinkCache = st.documentLinkCache := by
  simp only [provideDocumentLinks, hdl, hfind]
  simp only [getTsConfigAliases, hstat, hcc, parseConfig, hval]
  simp

/-- C1 witness: concrete run of the amended claim, on a filesystem whose
/p/tsconfig.json is invalid JSON. -/
theorem c1_witness :
    (provideDocumentLinks fsBadCfg initState docRelFoo).1 = .error .parseError ∧
    (provideDocumentLinks fsBadCfg initState docRelFoo).2.1.documentLinkCache =
      initState.documentLinkCache :=
  c1_parse_error_escapes fsBadCfg initState docRelFoo ["tsconfig.json", "p"]
    [(["p"], some ["tsconfig.json", "p"])] [.accessOp ["tsconfig.json", "p"]] .file
    rfl rfl rfl rfl rfl

/-- C1 counterexample: with an invalid /p/tsconfig.json, the whole scan of
the document aborts with an error — even though its sole specifier ./foo
is resolvable without any alias — refuting the claim that a malformed
configuration file is absorbed and affects no other specifier. -/
theorem c1_counterexample :
    (provideDocumentLinks fsBadCfg initState docRelFoo).1 = .error .parseError ∧
    (resolveAlias fsBadCfg ["p"] "./foo" []).1 = some ["foo.scss", "p"] :=
  ⟨rfl, rfl⟩

/-- C3 (amended): when no configuration file is found for the document's
directory, extractLinks produces an empty result but does NOT cache it: the
returned state carries an unchanged document-link cache (only the
directory cache advances), so the next call repeats the ancestor walk. -/
theorem c3_no_config_empty_uncached (fs : FileSystem) (st : ExtState) (doc : Document)
    (cpc : List (FsPath × Option FsPath)) (tr : List FsOp)
    (hdl : lookupKV st.documentLinkCache doc.fileName = none)
    (hfind : findNearestConfig fs st.configPathCache doc.fileName.tail = (none, cpc, tr)) :
    provideDocumentLinks fs st doc = (.ok [], { st with configPathCache := cpc }, tr) := by
  simp only [provideDocumentLinks, hdl, hfind]

/-- C3 witness: concrete no-config run returning the empty result, an
unchanged document-link cache and the walk's probe trace. -/
theorem c3_witness :
    provideDocumentLinks fsEmpty initState docRelFoo =
      (.ok [], { initState with configPathCache := [(["p"], none)] },
        [.accessOp ["tsconfig.json", "p"], .accessOp ["jsconfig.json", "p"]]) :=
  c3_no_config_empty_uncached fsEmpty initState docRelFoo [(["p"], none)]
    [.accessOp ["tsconfig.json", "p"], .accessOp ["jsconfig.json", "p"]] rfl rfl

/-- C3 counterexample: after a no-config scan the empty result is absent
from the document-link cache, refuting the claim that it is cached. -/
theorem c3_counterexample :
    (provideDocumentLinks fsEmpty initState docRelFoo).1 = .ok [] ∧
    lookupKV (provideDocumentLinks fsEmpty initState docRelFoo).2.1.documentLinkCache
      ["a.scss", "p"] = none :=
  ⟨rfl, rfl⟩

/-- C8 (amended): when the first extractLinks call completed and cached its
result (its outcome is in the document-link cache of the state it
returned), a second call on the unmodified document returns the identical
sequence and performs no filesystem operations. -/
theorem c8_second_call_cached (fs : FileSystem) (st : ExtState) (doc : Document)
    (links : List DocumentLink) (st1 : ExtState) (tr : List FsOp)
    (_h1 : provideDocumentLinks fs st doc = (.ok links, st1, tr))
    (h2 : lookupKV st1.documentLinkCache doc.fileName = some links) :
    provideDocumentLinks fs st1 doc = (.ok links, st1, []) := by
  simp only [provideDocumentLinks, h2]

/-- C8 witness: a full successful first scan of the aliased document caches
its single link; the second call returns the identical sequence with an
empty filesystem trace. -/
theorem c8_witness :
    provideDocumentLinks fsAliasBtn stAfterBtn docAliasBtn = (.ok [linkBtn], stAfterBtn, []) :=
  c8_second_call_cached fsAliasBtn initState docAliasBtn [linkBtn] stAfterBtn trBtn rfl rfl

/-- C8 counterexample: for a document with no nearest configuration file,
nothing is cached, and the second call DOES touch the filesystem (its probe
trace is nonempty), refuting the universal no-filesystem claim. -/
theorem c8_counterexample :
    (provideDocumentLinks fsEmpty
        (provideDocumentLinks fsEmpty initState docRelFoo).2.1 docRelFoo).2.2 ≠ [] := by
  decide
